import Mathlib

/-
  Verification of the mail-scheduler core (src/index.js, with the
  src/unnamed/part_000 variant differing only in logging detail and
  HTTP plumbing outside the scheduling core).

  Shallow embedding:
  * `TaskRecord` is the Mongo job document (jobSchema: jobId, email,
    subject, body, sendAt).  Timestamps are `Nat`.
  * The module-level `jobs` object is an association list from jobId to
    `Option Handle`: a key can be absent, present with a live handle
    (`some (some h)`), or present with the stored `null` that
    node-schedule returns for a date already in the past
    (`some none`).
  * The Durable Store, the winston log and the Notifier invocations are
    lists inside one `SysState`; the single-threaded event loop is a
    list of atomic `Act`ions folded over the state by `run`.
  * The Durable Store is assumed reliable (single-record insert/delete
    never fails), per the concurrency model of the design; hence the
    deleteOne error branches of the source are never taken and emit no
    log entry in the model.
-/

namespace MailScheduler

/-- A persisted job document, exactly the fields of `jobSchema` in
src/index.js (jobId, email, subject, body, sendAt). -/
structure TaskRecord where
  jobId : String
  email : String
  subject : String
  body : String
  sendAt : Nat
deriving DecidableEq, Repr

/-- A live node-schedule job handle: the fire time together with the
mail parameters captured by the closure passed to `scheduleJob`. -/
structure Handle where
  sendAt : Nat
  email : String
  subject : String
  body : String
deriving DecidableEq, Repr

/-- The registry type of the module-level `jobs` object: jobId keys
mapped to either a live handle or the `null` stored when node-schedule
declined to arm. -/
abbrev Registry := List (String × Option Handle)

/-- Look a key up in the `jobs` object: `none` when the key is absent,
`some v` when present (where `v = none` models a stored `null`). -/
def lookupReg : Registry → String → Option (Option Handle)
  | [], _ => none
  | (k, v) :: rest, id => if k = id then some v else lookupReg rest id

/-- Property-style assignment `jobs[jobId] = v`: overwrites the value if
the key is present, otherwise appends the binding. -/
def setReg : Registry → String → Option Handle → Registry
  | [], id, v => [(id, v)]
  | (k, w) :: rest, id, v =>
      if k = id then (id, v) :: rest else (k, w) :: setReg rest id v

/-- The JS `delete jobs[jobId]` operator: drops the binding for the key. -/
def delReg : Registry → String → Registry
  | [], _ => []
  | (k, v) :: rest, id =>
      if k = id then delReg rest id else (k, v) :: delReg rest id

/-- `jobs[jobId]` is truthy: the key is present and holds a live handle
(a stored `null` is falsy in JS). -/
def isLive (reg : Registry) (id : String) : Bool :=
  match lookupReg reg id with
  | some (some _) => true
  | _ => false

/-- A winston log line emitted by the scheduling core of src/index.js. -/
inductive LogEntry
  | errorSend (email : String)
  | infoSend (email : String)
deriving DecidableEq, Repr

/-- One Notifier invocation: the `to`, `subject` and body fields handed
to `transporter.sendMail` by the fire callback (`toAddr` stands for the
`to` field, a reserved word here). -/
structure SendReq where
  toAddr : String
  subject : String
  body : String
deriving DecidableEq, Repr

/-- The whole observable system state: the `jobs` registry, the Durable
Store contents, the log so far, and the Notifier invocations so far. -/
structure SysState where
  registry : Registry
  store : List TaskRecord
  log : List LogEntry
  sent : List SendReq
deriving DecidableEq, Repr

/-- The state at process start: empty registry, and whatever the store
holds is supplied in the `store` field. -/
def SysState.empty : SysState := ⟨[], [], [], []⟩

/-- Mongo `Job.deleteOne` keyed on jobId: removes the stored record
carrying the given jobId. -/
def deleteRecord (store : List TaskRecord) (id : String) : List TaskRecord :=
  store.filter (fun r => r.jobId ≠ id)

/-- node-schedule `scheduleJob(sendAt, cb)`: a date already in the past
yields no job (the library returns `null` and the callback never runs);
otherwise a live handle capturing the mail parameters is produced. -/
def scheduleJob (now sendAt : Nat) (email subject body : String) :
    Option Handle :=
  if sendAt < now then none else some ⟨sendAt, email, subject, body⟩

/-- `scheduleEmail` (src/index.js lines 58-84): arms a timer through
`scheduleJob` and stores the result — live handle or `null` — under the
jobId in the `jobs` object, overwriting any existing binding.  The body
of the armed callback is modelled separately by `fireCallback`. -/
def scheduleEmail (now : Nat) (jobId email subject body : String)
    (sendAt : Nat) (s : SysState) : SysState :=
  { s with registry :=
      setReg s.registry jobId (scheduleJob now sendAt email subject body) }

/-- The body of the callback handed to `scheduleJob` (src/index.js lines
59-81): invoke `transporter.sendMail` with the captured fields — whose
outcome is only logged (error line on failure, info line on success) —
then `delete jobs[jobId]`, then `Job.deleteOne` keyed on jobId. -/
def fireCallback (jobId : String) (h : Handle) (delivered : Bool)
    (s : SysState) : SysState :=
  { s with
    sent := s.sent ++ [⟨h.email, h.subject, h.body⟩]
    log := s.log ++
      [if delivered then LogEntry.infoSend h.email
       else LogEntry.errorSend h.email]
    registry := delReg s.registry jobId
    store := deleteRecord s.store jobId }

/-- The two HTTP responses of `DELETE /cancel-email/:jobId`. -/
inductive CancelResponse
  | cancelled
  | notFound
deriving DecidableEq, Repr

/-- `DELETE /cancel-email/:jobId` (src/index.js lines 108-120): when
`jobs[jobId]` is truthy, cancel the handle, drop the binding, delete the
stored record and answer success; otherwise answer 404 "Job not found"
with no state change (a stored `null` is falsy and hits the 404 arm). -/
def cancelEmail (jobId : String) (s : SysState) :
    SysState × CancelResponse :=
  match lookupReg s.registry jobId with
  | some (some _) =>
      ({ s with registry := delReg s.registry jobId
                store := deleteRecord s.store jobId },
       CancelResponse.cancelled)
  | _ => (s, CancelResponse.notFound)

/-- The internal steps of the schedule route, in the order the source
executes them: `job.save()`, then `scheduleEmail`, then `res.json`. -/
inductive TraceEvent
  | persist (r : TaskRecord)
  | arm (jobId : String) (handle : Option Handle)
  | respond (jobId : String)
deriving DecidableEq, Repr

/-- `POST /schedule-email` (src/index.js lines 99-106): build the record
from the request, `await job.save()` into the Durable Store, arm via
`scheduleEmail`, and only then respond with the generated jobId.  The
returned trace records the order in which those steps ran; the request
body undergoes no validation of `sendAt`. -/
def scheduleEndpoint (now : Nat) (jobId email subject body : String)
    (sendAt : Nat) (s : SysState) :
    SysState × String × List TraceEvent :=
  let r : TaskRecord := ⟨jobId, email, subject, body, sendAt⟩
  let s1 := { s with store := s.store ++ [r] }
  let s2 := scheduleEmail now jobId email subject body sendAt s1
  (s2, jobId,
    [TraceEvent.persist r,
     TraceEvent.arm jobId (scheduleJob now sendAt email subject body),
     TraceEvent.respond jobId])

/-- `loadJobs` body (src/index.js lines 86-97): `Job.find(\x7b\x7d)` then
re-arm every returned document through `scheduleEmail`, with no guard,
no error handling and no per-record logging. -/
def armAll (now : Nat) (records : List TaskRecord) (s : SysState) :
    SysState :=
  records.foldl
    (fun acc r =>
      scheduleEmail now r.jobId r.email r.subject r.body r.sendAt acc) s

/-- The Recovery Loader `loadJobs`: scan the whole Durable Store and
re-arm each record at its stored sendAt. -/
def loadJobs (now : Nat) (s : SysState) : SysState :=
  armAll now s.store s

/-- An atomic turn of the single-threaded event loop touching the
scheduling core: either the runtime runs a due timer callback, or a
cancel request is handled.  (Arming only happens through the schedule
route and recovery, both modelled explicitly above.) -/
inductive Act
  | fireDue (jobId : String) (delivered : Bool)
  | cancelReq (jobId : String)
deriving DecidableEq, Repr

/-- What an outside party observes of one event-loop turn: a Notifier
invocation (the task fired), a success answer to cancel, or a 404. -/
inductive Obs
  | fired (jobId : String)
  | cancelOk (jobId : String)
  | cancelFail (jobId : String)
deriving DecidableEq, Repr

/-- Execute one atomic turn.  A `fireDue` runs the armed callback only
when the registry still holds a live handle for the id: `job.cancel()`
prevents the callback from running, a one-shot timer never refires, and
the callback removes its own binding synchronously before any other
turn runs, so registry-liveness coincides with the timer being armed
and not yet run. -/
def step (s : SysState) : Act → SysState × List Obs
  | Act.fireDue id delivered =>
      match lookupReg s.registry id with
      | some (some h) => (fireCallback id h delivered s, [Obs.fired id])
      | _ => (s, [])
  | Act.cancelReq id =>
      match cancelEmail id s with
      | (s2, CancelResponse.cancelled) => (s2, [Obs.cancelOk id])
      | (s2, CancelResponse.notFound) => (s2, [Obs.cancelFail id])

/-- Run a whole sequence of event-loop turns, collecting observations. -/
def run : SysState → List Act → SysState × List Obs
  | s, [] => (s, [])
  | s, a :: acts =>
      let p := step s a
      let q := run p.1 acts
      (q.1, p.2 ++ q.2)

/-- How many terminal observations (`fired` or `cancelOk`) a given task
produced in an observation list. -/
def countDecided (id : String) (obs : List Obs) : Nat :=
  obs.count (Obs.fired id) + obs.count (Obs.cancelOk id)

/-- Whether an action list contains a fire tick for the given id. -/
def containsFire (id : String) (acts : List Act) : Bool :=
  acts.any (fun a =>
    match a with
    | Act.fireDue j _ => j = id
    | _ => false)

/-- How many registry bindings carry the given key. -/
def armedCount (reg : Registry) (id : String) : Nat :=
  (reg.filter (fun e => e.1 = id)).length

/-- The keys of the `jobs` object. -/
def regKeys (reg : Registry) : List String :=
  reg.map (fun e => e.1)

theorem lookupReg_setReg_self :
    ∀ (reg : Registry) (i : String) (v : Option Handle),
      lookupReg (setReg reg i v) i = some v
  | [], i, v => by simp [setReg, lookupReg]
  | (k, w) :: rest, i, v => by
      by_cases h : k = i
      · simp [setReg, lookupReg, h]
      · simp [setReg, lookupReg, h, lookupReg_setReg_self rest i v]

theorem lookupReg_setReg_ne :
    ∀ (reg : Registry) (j i : String) (v : Option Handle), j ≠ i →
      lookupReg (setReg reg j v) i = lookupReg reg i
  | [], j, i, v, h => by simp [setReg, lookupReg, h]
  | (k, w) :: rest, j, i, v, h => by
      by_cases hk : k = j
      · subst hk; simp [setReg, lookupReg, h]
      · simp only [setReg, if_neg hk, lookupReg]
        by_cases hi : k = i
        · simp [hi]
        · simp [hi, lookupReg_setReg_ne rest j i v h]

theorem lookupReg_delReg_self :
    ∀ (reg : Registry) (i : String),
      lookupReg (delReg reg i) i = none
  | [], i => by simp [delReg, lookupReg]
  | (k, w) :: rest, i => by
      by_cases h : k = i
      · simp [delReg, h, lookupReg_delReg_self rest i]
      · simp [delReg, lookupReg, h, lookupReg_delReg_self rest i]

theorem lookupReg_delReg_ne :
    ∀ (reg : Registry) (j i : String), j ≠ i →
      lookupReg (delReg reg j) i = lookupReg reg i
  | [], j, i, h => by simp [delReg, lookupReg]
  | (k, w) :: rest, j, i, h => by
      by_cases hk : k = j
      · subst hk; simp [delReg, lookupReg, h, lookupReg_delReg_ne rest k i h]
      · simp only [delReg, if_neg hk, lookupReg]
        by_cases hi : k = i
        · simp [hi]
        · simp [hi, lookupReg_delReg_ne rest j i h]

theorem isLive_delReg_ne (reg : Registry) (j i : String) (h : j ≠ i) :
    isLive (delReg reg j) i = isLive reg i := by
  simp [isLive, lookupReg_delReg_ne reg j i h]

theorem lookupReg_setReg_isSome (reg : Registry) (j i : String)
    (v : Option Handle) (h : (lookupReg reg i).isSome) :
    (lookupReg (setReg reg j v) i).isSome := by
  by_cases hji : j = i
  · subst hji; simp [lookupReg_setReg_self]
  · rw [lookupReg_setReg_ne reg j i v hji]; exact h

theorem countDecided_append (i : String) (o1 o2 : List Obs) :
    countDecided i (o1 ++ o2) = countDecided i o1 + countDecided i o2 := by
  simp [countDecided, List.count_append]; omega

theorem countDecided_other (i : String) (o : Obs)
    (h1 : o ≠ Obs.fired i) (h2 : o ≠ Obs.cancelOk i) :
    countDecided i [o] = 0 := by
  have m1 : Obs.fired i ∉ [o] := by
    simp only [List.mem_singleton]
    exact fun hh => h1 hh.symm
  have m2 : Obs.cancelOk i ∉ [o] := by
    simp only [List.mem_singleton]
    exact fun hh => h2 hh.symm
  simp [countDecided, List.count_eq_zero.mpr m1, List.count_eq_zero.mpr m2]

theorem step_decided (s : SysState) (a : Act) (i : String) :
    countDecided i (step s a).2 + (isLive (step s a).1.registry i).toNat
      = (isLive s.registry i).toNat := by
  cases a with
  | fireDue j d =>
      cases hl : lookupReg s.registry j with
      | none => simp [step, hl, countDecided]
      | some v =>
          cases v with
          | none => simp [step, hl, countDecided]
          | some h =>
              have e1 : step s (Act.fireDue j d)
                  = (fireCallback j h d s, [Obs.fired j]) := by
                simp [step, hl]
              by_cases hji : j = i
              · subst hji
                rw [e1]
                simp [fireCallback, countDecided, isLive, hl,
                      lookupReg_delReg_self]
              · rw [e1,
                    countDecided_other i (Obs.fired j) (by simp [hji])
                      (by simp)]
                have e2 : (fireCallback j h d s).registry
                    = delReg s.registry j := rfl
                rw [e2, isLive_delReg_ne s.registry j i hji]
                omega
  | cancelReq j =>
      cases hl : lookupReg s.registry j with
      | none => simp [step, cancelEmail, hl, countDecided]
      | some v =>
          cases v with
          | none => simp [step, cancelEmail, hl, countDecided]
          | some h =>
              have e1 : step s (Act.cancelReq j)
                  = ({ s with registry := delReg s.registry j
                              store := deleteRecord s.store j },
                     [Obs.cancelOk j]) := by
                simp [step, cancelEmail, hl]
              by_cases hji : j = i
              · subst hji
                rw [e1]
                simp [countDecided, isLive, hl, lookupReg_delReg_self]
              · rw [e1,
                    countDecided_other i (Obs.cancelOk j) (by simp)
                      (by simp [hji])]
                show 0 + (isLive (delReg s.registry j) i).toNat = _
                rw [isLive_delReg_ne s.registry j i hji]
                omega

theorem run_decided (acts : List Act) (s : SysState) (i : String) :
    countDecided i (run s acts).2 + (isLive (run s acts).1.registry i).toNat
      = (isLive s.registry i).toNat := by
  induction acts generalizing s with
  | nil => simp [run, countDecided]
  | cons a acts ih =>
      have h1 := step_decided s a i
      have h2 := ih (step s a).1
      simp only [run, countDecided_append]
      omega

theorem run_append (l1 l2 : List Act) (s : SysState) :
    run s (l1 ++ l2)
      = ((run (run s l1).1 l2).1, (run s l1).2 ++ (run (run s l1).1 l2).2) := by
  induction l1 generalizing s with
  | nil => simp [run]
  | cons a l ih => simp [run, ih (step s a).1, List.append_assoc]

theorem run_of_dead (acts : List Act) (s : SysState) (i : String)
    (h : isLive s.registry i = false) :
    isLive (run s acts).1.registry i = false ∧
    countDecided i (run s acts).2 = 0 := by
  have hd := run_decided acts s i
  rw [h] at hd
  cases hfin : isLive (run s acts).1.registry i with
  | false => rw [hfin] at hd; simp at hd; exact ⟨rfl, hd⟩
  | true => rw [hfin] at hd; simp at hd

theorem isLive_after_fire (s : SysState) (i : String) (d : Bool) :
    isLive (step s (Act.fireDue i d)).1.registry i = false := by
  cases hl : lookupReg s.registry i with
  | none => simp [step, hl, isLive]
  | some v =>
      cases v with
      | none => simp [step, hl, isLive]
      | some h => simp [step, hl, fireCallback, isLive, lookupReg_delReg_self]

theorem containsFire_not_live (acts : List Act) (s : SysState) (i : String)
    (h : containsFire i acts = true) :
    isLive (run s acts).1.registry i = false := by
  induction acts generalizing s with
  | nil => simp [containsFire] at h
  | cons a acts ih =>
      simp only [run]
      by_cases hc : containsFire i acts = true
      · exact ih (step s a).1 hc
      · cases a with
        | cancelReq j =>
            exfalso
            have e : containsFire i (Act.cancelReq j :: acts)
                = containsFire i acts := by
              simp [containsFire]
            rw [e] at h
            exact hc h
        | fireDue j d =>
            have e : containsFire i (Act.fireDue j d :: acts)
                = (decide (j = i) || containsFire i acts) := by
              simp [containsFire]
            rw [e] at h
            have hji : j = i := by
              rcases Bool.or_eq_true_iff.mp h with h1 | h1
              · exact of_decide_eq_true h1
              · exact absurd h1 hc
            subst hji
            exact (run_of_dead acts (step s (Act.fireDue j d)).1 j
              (isLive_after_fire s j d)).1

theorem cancel_fails_when_dead (s : SysState) (i : String)
    (h : isLive s.registry i = false) :
    step s (Act.cancelReq i) = (s, [Obs.cancelFail i]) := by
  cases hl : lookupReg s.registry i with
  | none => simp [step, cancelEmail, hl]
  | some v =>
      cases v with
      | none => simp [step, cancelEmail, hl]
      | some hh => simp [isLive, hl] at h

theorem armAll_cons (now : Nat) (r : TaskRecord) (rs : List TaskRecord)
    (s : SysState) :
    armAll now (r :: rs) s
      = armAll now rs
          (scheduleEmail now r.jobId r.email r.subject r.body r.sendAt s) :=
  rfl

theorem armAll_fields (now : Nat) (rs : List TaskRecord) (s : SysState) :
    (armAll now rs s).store = s.store ∧ (armAll now rs s).log = s.log ∧
    (armAll now rs s).sent = s.sent := by
  induction rs generalizing s with
  | nil => exact ⟨rfl, rfl, rfl⟩
  | cons r rs ih =>
      rw [armAll_cons]
      exact ih (scheduleEmail now r.jobId r.email r.subject r.body r.sendAt s)

theorem lookupReg_armAll_not_mem (now : Nat) (rs : List TaskRecord)
    (s : SysState) (i : String) (h : ∀ r ∈ rs, r.jobId ≠ i) :
    lookupReg (armAll now rs s).registry i = lookupReg s.registry i := by
  induction rs generalizing s with
  | nil => rfl
  | cons r rs ih =>
      rw [armAll_cons,
          ih _ (fun x hx => h x (List.mem_cons_of_mem r hx))]
      exact lookupReg_setReg_ne s.registry r.jobId i _
        (h r (List.mem_cons_self r rs))

theorem lookupReg_armAll_mem (now : Nat) (rs : List TaskRecord)
    (s : SysState) (hnd : (rs.map TaskRecord.jobId).Nodup)
    (r : TaskRecord) (hr : r ∈ rs) :
    lookupReg (armAll now rs s).registry r.jobId
      = some (scheduleJob now r.sendAt r.email r.subject r.body) := by
  induction rs generalizing s with
  | nil => cases hr
  | cons x rs ih =>
      rw [List.map_cons, List.nodup_cons] at hnd
      rw [armAll_cons]
      rcases List.mem_cons.mp hr with he | hm
      · subst he
        have hni : ∀ y ∈ rs, y.jobId ≠ r.jobId := by
          intro y hy heq
          exact hnd.1 (heq ▸ List.mem_map_of_mem TaskRecord.jobId hy)
        rw [lookupReg_armAll_not_mem now rs _ r.jobId hni]
        exact lookupReg_setReg_self s.registry r.jobId _
      · exact ih _ hnd.2 hm

theorem regKeys_cons (k : String) (w : Option Handle) (rest : Registry) :
    regKeys ((k, w) :: rest) = k :: regKeys rest := rfl

theorem armedCount_cons_self (k : String) (w : Option Handle)
    (rest : Registry) :
    armedCount ((k, w) :: rest) k = armedCount rest k + 1 := by
  simp [armedCount, List.filter_cons]

theorem armedCount_cons_ne (k i : String) (w : Option Handle)
    (rest : Registry) (h : k ≠ i) :
    armedCount ((k, w) :: rest) i = armedCount rest i := by
  simp [armedCount, List.filter_cons, h]

theorem mem_regKeys_setReg (reg : Registry) (i x : String)
    (v : Option Handle) (h : x ∈ regKeys (setReg reg i v)) :
    x ∈ regKeys reg ∨ x = i := by
  induction reg with
  | nil =>
      rw [show setReg [] i v = [(i, v)] from rfl, regKeys_cons] at h
      rcases List.mem_cons.mp h with he | hm
      · exact Or.inr he
      · cases hm
  | cons e rest ih =>
      obtain ⟨k, w⟩ := e
      by_cases hk : k = i
      · subst hk
        rw [show setReg ((k, w) :: rest) k v = (k, v) :: rest from by
              simp [setReg], regKeys_cons] at h
        rw [regKeys_cons]
        exact Or.inl h
      · rw [show setReg ((k, w) :: rest) i v = (k, w) :: setReg rest i v
              from by simp [setReg, hk], regKeys_cons] at h
        rw [regKeys_cons]
        rcases List.mem_cons.mp h with he | hm
        · exact Or.inl (he ▸ List.mem_cons_self k (regKeys rest))
        · rcases ih hm with h2 | h2
          · exact Or.inl (List.mem_cons_of_mem k h2)
          · exact Or.inr h2

theorem regKeys_setReg_nodup :
    ∀ (reg : Registry) (i : String) (v : Option Handle),
      (regKeys reg).Nodup → (regKeys (setReg reg i v)).Nodup
  | [], i, v, _ => by
      rw [show setReg [] i v = [(i, v)] from rfl, regKeys_cons]
      simp [regKeys]
  | (k, w) :: rest, i, v, h => by
      rw [regKeys_cons, List.nodup_cons] at h
      by_cases hk : k = i
      · subst hk
        rw [show setReg ((k, w) :: rest) k v = (k, v) :: rest from by
              simp [setReg], regKeys_cons, List.nodup_cons]
        exact h
      · have h2 := regKeys_setReg_nodup rest i v h.2
        have hmem : k ∉ regKeys (setReg rest i v) := by
          intro hx
          rcases mem_regKeys_setReg rest i k v hx with hx | hx
          · exact h.1 hx
          · exact hk hx
        rw [show setReg ((k, w) :: rest) i v = (k, w) :: setReg rest i v
              from by simp [setReg, hk], regKeys_cons, List.nodup_cons]
        exact ⟨hmem, h2⟩

theorem armedCount_zero_of_not_mem (reg : Registry) (i : String)
    (h : i ∉ regKeys reg) : armedCount reg i = 0 := by
  induction reg with
  | nil => rfl
  | cons e rest ih =>
      obtain ⟨k, w⟩ := e
      rw [regKeys_cons] at h
      simp only [List.mem_cons, not_or] at h
      have hk : k ≠ i := fun he => h.1 he.symm
      rw [armedCount_cons_ne k i w rest hk]
      exact ih h.2

theorem armedCount_eq_one (reg : Registry) (i : String)
    (hnd : (regKeys reg).Nodup) (h : (lookupReg reg i).isSome) :
    armedCount reg i = 1 := by
  induction reg with
  | nil => simp [lookupReg] at h
  | cons e rest ih =>
      obtain ⟨k, w⟩ := e
      rw [regKeys_cons, List.nodup_cons] at hnd
      by_cases hk : k = i
      · subst hk
        rw [armedCount_cons_self k w rest,
            armedCount_zero_of_not_mem rest k hnd.1]
      · rw [lookupReg, if_neg hk] at h
        rw [armedCount_cons_ne k i w rest hk]
        exact ih hnd.2 h

theorem regKeys_armAll_nodup (now : Nat) (rs : List TaskRecord)
    (s : SysState) (h : (regKeys s.registry).Nodup) :
    (regKeys (armAll now rs s).registry).Nodup := by
  induction rs generalizing s with
  | nil => exact h
  | cons r rs ih =>
      rw [armAll_cons]
      exact ih _ (regKeys_setReg_nodup s.registry r.jobId _ h)

theorem lookupReg_armAll_isSome (now : Nat) (rs : List TaskRecord)
    (s : SysState) (i : String) (h : (lookupReg s.registry i).isSome) :
    (lookupReg (armAll now rs s).registry i).isSome := by
  induction rs generalizing s with
  | nil => exact h
  | cons r rs ih =>
      rw [armAll_cons]
      exact ih _ (lookupReg_setReg_isSome s.registry r.jobId i _ h)

theorem lookupReg_armAll_isSome_of_mem (now : Nat) (rs : List TaskRecord)
    (s : SysState) (r : TaskRecord) (hr : r ∈ rs) :
    (lookupReg (armAll now rs s).registry r.jobId).isSome := by
  induction rs generalizing s with
  | nil => cases hr
  | cons x rs ih =>
      rw [armAll_cons]
      rcases List.mem_cons.mp hr with he | hm
      · subst he
        exact lookupReg_armAll_isSome now rs _ _
          (by simp [scheduleEmail, lookupReg_setReg_self])
      · exact ih _ hm

theorem cancel_notFound_of_null (s : SysState) (i : String)
    (h : lookupReg s.registry i = some none) :
    (cancelEmail i s).2 = CancelResponse.notFound := by
  simp [cancelEmail, h]

theorem step_preserves_null (s : SysState) (a : Act) (i : String)
    (r : TaskRecord) (hid : r.jobId = i)
    (hn : lookupReg s.registry i = some none) (hm : r ∈ s.store) :
    lookupReg (step s a).1.registry i = some none ∧
    r ∈ (step s a).1.store := by
  cases a with
  | fireDue j d =>
      cases hl : lookupReg s.registry j with
      | none =>
          rw [show step s (Act.fireDue j d) = (s, []) from by simp [step, hl]]
          exact ⟨hn, hm⟩
      | some v =>
          cases v with
          | none =>
              rw [show step s (Act.fireDue j d) = (s, []) from by
                    simp [step, hl]]
              exact ⟨hn, hm⟩
          | some h =>
              have hji : j ≠ i := by
                intro he; rw [he, hn] at hl; cases hl
              rw [show step s (Act.fireDue j d)
                    = (fireCallback j h d s, [Obs.fired j]) from by
                    simp [step, hl]]
              refine ⟨?_, ?_⟩
              · show lookupReg (delReg s.registry j) i = some none
                rw [lookupReg_delReg_ne s.registry j i hji]; exact hn
              · show r ∈ deleteRecord s.store j
                simp only [deleteRecord, List.mem_filter,
                  decide_eq_true_eq]
                exact ⟨hm, by rw [hid]; exact fun he => hji he.symm⟩
  | cancelReq j =>
      cases hl : lookupReg s.registry j with
      | none =>
          rw [show step s (Act.cancelReq j) = (s, [Obs.cancelFail j]) from by
                simp [step, cancelEmail, hl]]
          exact ⟨hn, hm⟩
      | some v =>
          cases v with
          | none =>
              rw [show step s (Act.cancelReq j) = (s, [Obs.cancelFail j])
                    from by simp [step, cancelEmail, hl]]
              exact ⟨hn, hm⟩
          | some h =>
              have hji : j ≠ i := by
                intro he; rw [he, hn] at hl; cases hl
              rw [show step s (Act.cancelReq j)
                    = ({ s with registry := delReg s.registry j
                                store := deleteRecord s.store j },
                       [Obs.cancelOk j]) from by
                    simp [step, cancelEmail, hl]]
              refine ⟨?_, ?_⟩
              · show lookupReg (delReg s.registry j) i = some none
                rw [lookupReg_delReg_ne s.registry j i hji]; exact hn
              · show r ∈ deleteRecord s.store j
                simp only [deleteRecord, List.mem_filter,
                  decide_eq_true_eq]
                exact ⟨hm, by rw [hid]; exact fun he => hji he.symm⟩

theorem run_preserves_null (acts : List Act) (s : SysState) (i : String)
    (r : TaskRecord) (hid : r.jobId = i)
    (hn : lookupReg s.registry i = some none) (hm : r ∈ s.store) :
    lookupReg (run s acts).1.registry i = some none ∧
    r ∈ (run s acts).1.store := by
  induction acts generalizing s with
  | nil => exact ⟨hn, hm⟩
  | cons a acts ih =>
      have hstep := step_preserves_null s a i r hid hn hm
      simp only [run]
      exact ih (step s a).1 hstep.1 hstep.2

/-- C1: when the `jobs` registry holds a live handle for the id at call
time, `cancelEmail` disarms it, removes the registry binding, deletes
the stored record (every record under that id is gone, every other
record kept), touches neither the log nor the Notifier, and answers
success; otherwise — already fired, already cancelled, stored null, or
never existed — it answers not-found and changes no state at all. -/
theorem cancel_spec (s : SysState) (i : String) :
    (isLive s.registry i = true →
       (cancelEmail i s).2 = CancelResponse.cancelled ∧
       lookupReg (cancelEmail i s).1.registry i = none ∧
       (∀ r ∈ (cancelEmail i s).1.store, r.jobId ≠ i) ∧
       (∀ r ∈ s.store, r.jobId ≠ i → r ∈ (cancelEmail i s).1.store) ∧
       (cancelEmail i s).1.log = s.log ∧
       (cancelEmail i s).1.sent = s.sent) ∧
    (isLive s.registry i = false →
       cancelEmail i s = (s, CancelResponse.notFound)) := by
  constructor
  · intro hl
    cases hlk : lookupReg s.registry i with
    | none => rw [isLive, hlk] at hl; cases hl
    | some v =>
        cases v with
        | none => rw [isLive, hlk] at hl; cases hl
        | some h =>
            have e : cancelEmail i s
                = ({ s with registry := delReg s.registry i
                            store := deleteRecord s.store i },
                   CancelResponse.cancelled) := by
              simp [cancelEmail, hlk]
            rw [e]
            refine ⟨rfl, lookupReg_delReg_self s.registry i, ?_, ?_, rfl, rfl⟩
            · intro r hr
              have := List.mem_filter.mp hr
              simpa using this.2
            · intro r hr hne
              exact List.mem_filter.mpr ⟨hr, by simpa using hne⟩
  · intro hl
    cases hlk : lookupReg s.registry i with
    | none => simp [cancelEmail, hlk]
    | some v =>
        cases v with
        | none => simp [cancelEmail, hlk]
        | some h => rw [isLive, hlk] at hl; cases hl

theorem cancel_spec_witness :
    (cancelEmail "a"
        ⟨[("a", some ⟨5, "e", "s", "b"⟩)], [⟨"a", "e", "s", "b", 5⟩], [], []⟩).2
      = CancelResponse.cancelled ∧
    cancelEmail "b"
        ⟨[("a", some ⟨5, "e", "s", "b"⟩)], [⟨"a", "e", "s", "b", 5⟩], [], []⟩
      = (⟨[("a", some ⟨5, "e", "s", "b"⟩)], [⟨"a", "e", "s", "b", 5⟩], [], []⟩,
         CancelResponse.notFound) :=
  ⟨((cancel_spec
      ⟨[("a", some ⟨5, "e", "s", "b"⟩)], [⟨"a", "e", "s", "b", 5⟩], [], []⟩
      "a").1 (by decide)).1,
   (cancel_spec
      ⟨[("a", some ⟨5, "e", "s", "b"⟩)], [⟨"a", "e", "s", "b", 5⟩], [], []⟩
      "b").2 (by decide)⟩

/-- C2: the schedule route persists the record to the Durable Store
strictly before arming the timer, and the generated id is returned to
the caller only after both steps: in the execution trace the persist
step precedes the arm step, the response is the final step, the
response carries the id, and in the final state the record is stored
and the timer armed. -/
theorem schedule_persist_before_arm (now : Nat)
    (jobId email subject body : String) (sendAt : Nat) (s : SysState) :
    List.indexOf
        (TraceEvent.persist ⟨jobId, email, subject, body, sendAt⟩)
        (scheduleEndpoint now jobId email subject body sendAt s).2.2
      < List.indexOf
        (TraceEvent.arm jobId (scheduleJob now sendAt email subject body))
        (scheduleEndpoint now jobId email subject body sendAt s).2.2 ∧
    List.indexOf
        (TraceEvent.arm jobId (scheduleJob now sendAt email subject body))
        (scheduleEndpoint now jobId email subject body sendAt s).2.2
      < List.indexOf (TraceEvent.respond jobId)
        (scheduleEndpoint now jobId email subject body sendAt s).2.2 ∧
    (scheduleEndpoint now jobId email subject body sendAt s).2.2.getLast?
      = some (TraceEvent.respond jobId) ∧
    (scheduleEndpoint now jobId email subject body sendAt s).2.1 = jobId ∧
    (⟨jobId, email, subject, body, sendAt⟩ : TaskRecord)
      ∈ (scheduleEndpoint now jobId email subject body sendAt s).1.store ∧
    lookupReg
        (scheduleEndpoint now jobId email subject body sendAt s).1.registry
        jobId
      = some (scheduleJob now sendAt email subject body) := by
  have h1 : List.indexOf
      (TraceEvent.persist ⟨jobId, email, subject, body, sendAt⟩)
      (scheduleEndpoint now jobId email subject body sendAt s).2.2 = 0 :=
    List.indexOf_cons_self _ _
  have h2 : List.indexOf
      (TraceEvent.arm jobId (scheduleJob now sendAt email subject body))
      (scheduleEndpoint now jobId email subject body sendAt s).2.2 = 1 := by
    show List.indexOf _
      (TraceEvent.persist ⟨jobId, email, subject, body, sendAt⟩ :: _) = 1
    rw [List.indexOf_cons_ne _ (by simp), List.indexOf_cons_self]
  have h3 : List.indexOf (TraceEvent.respond jobId)
      (scheduleEndpoint now jobId email subject body sendAt s).2.2 = 2 := by
    show List.indexOf _
      (TraceEvent.persist ⟨jobId, email, subject, body, sendAt⟩ :: _) = 2
    rw [List.indexOf_cons_ne _ (by simp), List.indexOf_cons_ne _ (by simp),
        List.indexOf_cons_self]
  refine ⟨by rw [h1, h2]; exact Nat.zero_lt_one,
          by rw [h2, h3]; exact Nat.one_lt_two, rfl, rfl, ?_, ?_⟩
  · show _ ∈ s.store ++ [(⟨jobId, email, subject, body, sendAt⟩ : TaskRecord)]
    exact List.mem_append_right s.store (List.mem_singleton.mpr rfl)
  · exact lookupReg_setReg_self s.registry jobId _

/-- C3: when a live timer for the id fires, the callback removes the
registry binding and deletes the stored record — once, and a second
fire tick on the same id is a complete no-op — independently of the
Notifier outcome: the success state and the failure state agree on
registry, store and Notifier calls and differ only in the log line,
delivery failure producing exactly one error log entry and no retry,
re-arm, or caller-visible error. -/
theorem fire_cleanup_once (s : SysState) (i : String) (h : Handle)
    (hl : lookupReg s.registry i = some (some h)) :
    (∀ d : Bool,
       (step s (Act.fireDue i d)).2 = [Obs.fired i] ∧
       (step s (Act.fireDue i d)).1.registry = delReg s.registry i ∧
       lookupReg (step s (Act.fireDue i d)).1.registry i = none ∧
       (∀ r ∈ (step s (Act.fireDue i d)).1.store, r.jobId ≠ i) ∧
       (step s (Act.fireDue i d)).1.sent
         = s.sent ++ [⟨h.email, h.subject, h.body⟩] ∧
       ∀ d2 : Bool,
         step (step s (Act.fireDue i d)).1 (Act.fireDue i d2)
           = ((step s (Act.fireDue i d)).1, [])) ∧
    (step s (Act.fireDue i false)).1.log
      = s.log ++ [LogEntry.errorSend h.email] ∧
    (step s (Act.fireDue i true)).1
      = { (step s (Act.fireDue i false)).1 with
          log := s.log ++ [LogEntry.infoSend h.email] } := by
  have e : ∀ d : Bool, step s (Act.fireDue i d)
      = (fireCallback i h d s, [Obs.fired i]) := by
    intro d; simp [step, hl]
  refine ⟨?_, ?_, ?_⟩
  · intro d
    rw [e d]
    have hlook : lookupReg (fireCallback i h d s).registry i = none :=
      lookupReg_delReg_self s.registry i
    refine ⟨rfl, rfl, hlook, ?_, rfl, ?_⟩
    · intro r hr
      have := List.mem_filter.mp hr
      simpa using this.2
    · intro d2
      simp [step, hlook]
  · rw [e false]; rfl
  · rw [e true, e false]; rfl

theorem fire_cleanup_once_witness :
    (step ⟨[("a", some ⟨5, "e", "s", "b"⟩)], [⟨"a", "e", "s", "b", 5⟩], [], []⟩
        (Act.fireDue "a" false)).2 = [Obs.fired "a"] :=
  (((fire_cleanup_once
      ⟨[("a", some ⟨5, "e", "s", "b"⟩)], [⟨"a", "e", "s", "b", 5⟩], [], []⟩
      "a" ⟨5, "e", "s", "b"⟩ (by decide)).1) false).1

/-- C4 counterexample: a schedule request at time 100 for a fire time of
5 — far in the past — is not rejected: the route persists the record to
the Durable Store, stores a null in the registry, and answers the
caller with the generated id as success.  No InvalidSchedule rejection
exists anywhere in the code, so the claimed no-mutation error path is
refuted at this concrete input. -/
theorem schedule_past_rejected_cex :
    (scheduleEndpoint 100 "a" "e" "s" "b" 5 SysState.empty).2.1 = "a" ∧
    (⟨"a", "e", "s", "b", 5⟩ : TaskRecord)
      ∈ (scheduleEndpoint 100 "a" "e" "s" "b" 5 SysState.empty).1.store ∧
    lookupReg
        (scheduleEndpoint 100 "a" "e" "s" "b" 5 SysState.empty).1.registry
        "a"
      = some none := by decide

/-- C4 (amended): the schedule route never rejects a fireAt in the past
and never surfaces InvalidSchedule; it persists the record, stores the
null that the scheduling primitive yields for a past date, emits no log
line, and returns the generated id to the caller as success. -/
theorem schedule_past_accepts (now : Nat)
    (jobId email subject body : String) (sendAt : Nat) (s : SysState)
    (hpast : sendAt < now) :
    (scheduleEndpoint now jobId email subject body sendAt s).2.1 = jobId ∧
    (scheduleEndpoint now jobId email subject body sendAt s).1.store
      = s.store ++ [⟨jobId, email, subject, body, sendAt⟩] ∧
    lookupReg
        (scheduleEndpoint now jobId email subject body sendAt s).1.registry
        jobId
      = some none ∧
    (scheduleEndpoint now jobId email subject body sendAt s).1.log
      = s.log := by
  have hj : scheduleJob now sendAt email subject body = none := by
    simp [scheduleJob, hpast]
  refine ⟨rfl, rfl, ?_, rfl⟩
  show lookupReg (setReg s.registry jobId
      (scheduleJob now sendAt email subject body)) jobId = some none
  rw [hj]
  exact lookupReg_setReg_self s.registry jobId none

theorem schedule_past_accepts_witness :
    5 < 100 ∧
    (scheduleEndpoint 100 "a" "e" "s" "b" 5 SysState.empty).2.1 = "a" :=
  ⟨by decide,
   (schedule_past_accepts 100 "a" "e" "s" "b" 5 SysState.empty
      (by decide)).1⟩

/-- C5 counterexample: with a live handle already armed for id "a"
(fire time 10), a second arm call for the same id silently stores the
new handle in its place — the registry afterwards holds exactly one
binding for "a" and it is the second handle; no DuplicateTask failure
exists in the code. -/
theorem arm_silent_replace_cex :
    isLive (scheduleEmail 0 "a" "e1" "s1" "b1" 10 SysState.empty).registry
        "a" = true ∧
    lookupReg
        (scheduleEmail 0 "a" "e2" "s2" "b2" 20
          (scheduleEmail 0 "a" "e1" "s1" "b1" 10 SysState.empty)).registry
        "a"
      = some (some ⟨20, "e2", "s2", "b2"⟩) ∧
    armedCount
        (scheduleEmail 0 "a" "e2" "s2" "b2" 20
          (scheduleEmail 0 "a" "e1" "s1" "b1" 10 SysState.empty)).registry
        "a" = 1 := by decide

/-- C5 (amended): arming is an unconditional overwrite: whatever the
registry held for the id before — live handle, stored null, or nothing
— after `scheduleEmail` the binding is exactly the freshly produced
handle, and no failure is ever reported. -/
theorem arm_overwrites (now : Nat) (jobId email subject body : String)
    (sendAt : Nat) (s : SysState) :
    lookupReg
        (scheduleEmail now jobId email subject body sendAt s).registry
        jobId
      = some (scheduleJob now sendAt email subject body) :=
  lookupReg_setReg_self s.registry jobId _

/-- C6 counterexample: a task scheduled at time 100 for fire time 5
(the null-handle case the route happily accepts) observes neither Fired
nor Cancelled in an execution containing both a fire tick and a cancel
request for it — the record is even still in the store afterwards — so
the claimed "exactly one of Fired or Cancelled in every execution,
never neither" is refuted at this concrete input. -/
theorem fire_cancel_neither_cex :
    countDecided "a"
        (run (scheduleEndpoint 100 "a" "e" "s" "b" 5 SysState.empty).1
          [Act.fireDue "a" true, Act.cancelReq "a"]).2 = 0 ∧
    (⟨"a", "e", "s", "b", 5⟩ : TaskRecord)
      ∈ (run (scheduleEndpoint 100 "a" "e" "s" "b" 5 SysState.empty).1
          [Act.fireDue "a" true, Act.cancelReq "a"]).1.store := by decide

/-- C6 (amended): for a task holding a live handle in the registry,
cancel and the timer fire are mutually exclusive: every execution
containing a fire tick for the id observes exactly one of Fired or
Cancelled — never both, never neither — and once the fire has run, any
later cancel request reports failure.  (A task whose arming yielded
only a stored null observes neither.) -/
theorem fire_cancel_mutex (s : SysState) (i : String) (acts : List Act)
    (hlive : isLive s.registry i = true)
    (hfire : containsFire i acts = true) :
    countDecided i (run s acts).2 = 1 ∧
    ∀ pre : List Act, Obs.fired i ∈ (run s pre).2 →
      run s (pre ++ [Act.cancelReq i])
        = ((run s pre).1, (run s pre).2 ++ [Obs.cancelFail i]) := by
  constructor
  · have hd := run_decided acts s i
    rw [hlive, containsFire_not_live acts s i hfire] at hd
    simpa using hd
  · intro pre hmem
    have hcnt : 0 < countDecided i (run s pre).2 := by
      have := List.count_pos_iff.mpr hmem
      have hle : List.count (Obs.fired i) (run s pre).2
          ≤ countDecided i (run s pre).2 := Nat.le_add_right _ _
      omega
    have hd := run_decided pre s i
    rw [hlive] at hd
    have hdead : isLive (run s pre).1.registry i = false := by
      cases hfin : isLive (run s pre).1.registry i with
      | false => rfl
      | true => rw [hfin] at hd; simp at hd; omega
    have hstep := cancel_fails_when_dead (run s pre).1 i hdead
    rw [run_append pre [Act.cancelReq i] s]
    simp [run, hstep]

theorem fire_cancel_mutex_witness :
    isLive (scheduleEmail 0 "a" "e" "s" "b" 10 SysState.empty).registry "a"
      = true ∧
    containsFire "a" [Act.fireDue "a" true] = true ∧
    countDecided "a"
        (run (scheduleEmail 0 "a" "e" "s" "b" 10 SysState.empty)
          [Act.fireDue "a" true]).2 = 1 :=
  ⟨by decide, by decide,
   (fire_cancel_mutex (scheduleEmail 0 "a" "e" "s" "b" 10 SysState.empty)
      "a" [Act.fireDue "a" true] (by decide) (by decide)).1⟩

/-- C7: after the Recovery Loader runs at startup (empty registry) over
a store of records with pairwise distinct ids, all with fire times in
the future, every record holds exactly one live timer in the rebuilt
registry, armed at its original stored sendAt with its original mail
fields. -/
theorem recovery_rearms_all (now : Nat) (s : SysState)
    (hreg : s.registry = [])
    (hnd : (s.store.map TaskRecord.jobId).Nodup)
    (hfut : ∀ r ∈ s.store, now < r.sendAt) :
    ∀ r ∈ s.store,
      lookupReg (loadJobs now s).registry r.jobId
        = some (some ⟨r.sendAt, r.email, r.subject, r.body⟩) ∧
      armedCount (loadJobs now s).registry r.jobId = 1 := by
  intro r hr
  have hsj : scheduleJob now r.sendAt r.email r.subject r.body
      = some ⟨r.sendAt, r.email, r.subject, r.body⟩ := by
    simp [scheduleJob, Nat.not_lt.mpr (Nat.le_of_lt (hfut r hr))]
  have h1 := lookupReg_armAll_mem now s.store s hnd r hr
  rw [hsj] at h1
  refine ⟨h1, ?_⟩
  have hkeys : (regKeys (loadJobs now s).registry).Nodup := by
    apply regKeys_armAll_nodup
    rw [hreg]
    exact List.nodup_nil
  apply armedCount_eq_one _ _ hkeys
  show (lookupReg (armAll now s.store s).registry r.jobId).isSome = true
  rw [h1]
  rfl

theorem recovery_rearms_all_witness :
    lookupReg
        (loadJobs 0
          ⟨[], [⟨"a", "e1", "s1", "b1", 10⟩, ⟨"b", "e2", "s2", "b2", 20⟩],
           [], []⟩).registry "a"
      = some (some ⟨10, "e1", "s1", "b1"⟩) :=
  (recovery_rearms_all 0
    ⟨[], [⟨"a", "e1", "s1", "b1", 10⟩, ⟨"b", "e2", "s2", "b2", 20⟩], [], []⟩
    rfl (by decide) (by decide)
    ⟨"a", "e1", "s1", "b1", 10⟩ (by decide)).1

/-- C8 counterexample: recovery over a store holding one record whose
sendAt (5) already elapsed (load time 100) stores a null under its id
and emits no log line whatsoever — the skipped record is not observable
in the logs, refuting the claimed per-skip observability at this
concrete input. -/
theorem recovery_silent_skip_cex :
    lookupReg
        (loadJobs 100 ⟨[], [⟨"a", "e", "s", "b", 5⟩], [], []⟩).registry "a"
      = some none ∧
    (loadJobs 100 ⟨[], [⟨"a", "e", "s", "b", 5⟩], [], []⟩).log = [] := by
  decide

/-- C8 (amended): recovery never aborts — every record of the store,
including every record after a failed re-arm, still gets its registry
binding, and the store itself is untouched — but a record whose re-arm
yields no live timer is skipped silently: the log is left exactly as it
was, so skips are not observable. -/
theorem recovery_no_abort_silent (now : Nat) (s : SysState) :
    (loadJobs now s).log = s.log ∧
    (loadJobs now s).store = s.store ∧
    ∀ r ∈ s.store, (lookupReg (loadJobs now s).registry r.jobId).isSome := by
  have hf := armAll_fields now s.store s
  refine ⟨hf.2.1, hf.1, ?_⟩
  intro r hr
  exact lookupReg_armAll_isSome_of_mem now s.store s r hr

theorem recovery_no_abort_silent_witness :
    (loadJobs 100 ⟨[], [⟨"a", "e", "s", "b", 5⟩], [], []⟩).log = [] ∧
    (lookupReg
        (loadJobs 100 ⟨[], [⟨"a", "e", "s", "b", 5⟩], [], []⟩).registry
        "a").isSome :=
  ⟨(recovery_no_abort_silent 100
      ⟨[], [⟨"a", "e", "s", "b", 5⟩], [], []⟩).1,
   (recovery_no_abort_silent 100
      ⟨[], [⟨"a", "e", "s", "b", 5⟩], [], []⟩).2.2
      ⟨"a", "e", "s", "b", 5⟩ (by decide)⟩

/-- C9: when a task armed from a record fires, the Notifier is invoked
with exactly the recipient, subject and body of that record, forwarded
verbatim — the statement holds for arbitrary strings, so the engine
never inspects or transforms them — and the fire is observed exactly
once. -/
theorem fire_forwards_verbatim (now : Nat) (r : TaskRecord)
    (s : SysState) (d : Bool) (hfut : now ≤ r.sendAt) :
    (step (scheduleEmail now r.jobId r.email r.subject r.body r.sendAt s)
        (Act.fireDue r.jobId d)).1.sent
      = s.sent ++ [⟨r.email, r.subject, r.body⟩] ∧
    (step (scheduleEmail now r.jobId r.email r.subject r.body r.sendAt s)
        (Act.fireDue r.jobId d)).2 = [Obs.fired r.jobId] := by
  have hsj : scheduleJob now r.sendAt r.email r.subject r.body
      = some ⟨r.sendAt, r.email, r.subject, r.body⟩ := by
    simp [scheduleJob, Nat.not_lt.mpr hfut]
  have hlk : lookupReg
      (scheduleEmail now r.jobId r.email r.subject r.body r.sendAt
        s).registry r.jobId
      = some (some ⟨r.sendAt, r.email, r.subject, r.body⟩) := by
    show lookupReg (setReg s.registry r.jobId
        (scheduleJob now r.sendAt r.email r.subject r.body)) r.jobId
      = some (some ⟨r.sendAt, r.email, r.subject, r.body⟩)
    rw [hsj]
    exact lookupReg_setReg_self s.registry r.jobId _
  rw [show step (scheduleEmail now r.jobId r.email r.subject r.body
        r.sendAt s) (Act.fireDue r.jobId d)
      = (fireCallback r.jobId ⟨r.sendAt, r.email, r.subject, r.body⟩ d
          (scheduleEmail now r.jobId r.email r.subject r.body r.sendAt s),
         [Obs.fired r.jobId]) from by simp [step, hlk]]
  exact ⟨rfl, rfl⟩

theorem fire_forwards_verbatim_witness :
    (step (scheduleEmail 0 "a" "e" "s" "b" 10 SysState.empty)
        (Act.fireDue "a" true)).1.sent = [⟨"e", "s", "b"⟩] :=
  (fire_forwards_verbatim 0 ⟨"a", "e", "s", "b", 10⟩ SysState.empty true
    (by decide)).1

/-- C10: a schedule request whose fire time already passed stores the
null that the scheduling primitive returns under the id, emits no log
line, yet persists the record; from then on, under every sequence of
fire ticks and cancel requests, the registry keeps the null binding,
the record stays in the Durable Store, and every cancel on the id
answers not-found — the record leaks and the task can neither fire nor
be cancelled. -/
theorem null_handle_leak (now : Nat) (jobId email subject body : String)
    (sendAt : Nat) (s : SysState) (hpast : sendAt < now) :
    lookupReg
        (scheduleEndpoint now jobId email subject body sendAt s).1.registry
        jobId = some none ∧
    (scheduleEndpoint now jobId email subject body sendAt s).1.log
      = s.log ∧
    (⟨jobId, email, subject, body, sendAt⟩ : TaskRecord)
      ∈ (scheduleEndpoint now jobId email subject body sendAt s).1.store ∧
    ∀ acts : List Act,
      lookupReg
          (run (scheduleEndpoint now jobId email subject body sendAt s).1
            acts).1.registry jobId = some none ∧
      (⟨jobId, email, subject, body, sendAt⟩ : TaskRecord)
        ∈ (run (scheduleEndpoint now jobId email subject body sendAt s).1
            acts).1.store ∧
      (cancelEmail jobId
          (run (scheduleEndpoint now jobId email subject body sendAt s).1
            acts).1).2 = CancelResponse.notFound := by
  have hnull : lookupReg
      (scheduleEndpoint now jobId email subject body sendAt s).1.registry
      jobId = some none := by
    show lookupReg (setReg s.registry jobId
        (scheduleJob now sendAt email subject body)) jobId = some none
    rw [show scheduleJob now sendAt email subject body = none from by
          simp [scheduleJob, hpast]]
    exact lookupReg_setReg_self s.registry jobId none
  have hmem : (⟨jobId, email, subject, body, sendAt⟩ : TaskRecord)
      ∈ (scheduleEndpoint now jobId email subject body sendAt s).1.store := by
    show _ ∈ s.store ++ [(⟨jobId, email, subject, body, sendAt⟩ : TaskRecord)]
    exact List.mem_append_right s.store (List.mem_singleton.mpr rfl)
  refine ⟨hnull, rfl, hmem, ?_⟩
  intro acts
  have hrun := run_preserves_null acts
    (scheduleEndpoint now jobId email subject body sendAt s).1 jobId
    ⟨jobId, email, subject, body, sendAt⟩ rfl hnull hmem
  exact ⟨hrun.1, hrun.2, cancel_notFound_of_null _ jobId hrun.1⟩

theorem null_handle_leak_witness :
    5 < 100 ∧
    (cancelEmail "a"
        (run (scheduleEndpoint 100 "a" "e" "s" "b" 5 SysState.empty).1
          [Act.cancelReq "a", Act.fireDue "a" true]).1).2
      = CancelResponse.notFound :=
  ⟨by decide,
   ((null_handle_leak 100 "a" "e" "s" "b" 5 SysState.empty (by decide)).2.2.2
      [Act.cancelReq "a", Act.fireDue "a" true]).2.2⟩

end MailScheduler
